import Mathlib

/-!
Verification of the baby-feeding/diaper log parser (`babyplot_data.py`).

Strings are modelled as `List Char`.  Decimal digits (`\d` in the source
regexes, `str.isdigit`, `int(...)`) are modelled as the ASCII digits
`'0'..'9'` (`Char.isDigit`); whitespace (`str.strip`, `str.split`) is
modelled by `Char.isWhitespace`.  Tokens fed to the per-token parsers come
from `str.split()` and therefore never contain whitespace or newlines, so
the `$` anchor of the source regexes is modelled as end of string.
-/

/-- Value of a list of decimal digit characters, most significant first
(models Python `int` on a digit string). -/
def digitsToNat (l : List Char) : Nat :=
  l.foldl (fun n c => n * 10 + (c.toNat - 48)) 0

/-- Python `str.strip()`: drop leading and trailing whitespace. -/
def pstrip (l : List Char) : List Char :=
  (((l.dropWhile Char.isWhitespace).reverse).dropWhile Char.isWhitespace).reverse

/-- Helper for `pysplit`: accumulates the current word (reversed). -/
def pysplitAux : List Char → List Char → List (List Char)
  | [], acc => if acc = [] then [] else [acc.reverse]
  | c :: rest, acc =>
    if c.isWhitespace then
      if acc = [] then pysplitAux rest [] else acc.reverse :: pysplitAux rest []
    else pysplitAux rest (c :: acc)

/-- Python `str.split()`: split on whitespace runs, discarding empty pieces. -/
def pysplit (l : List Char) : List (List Char) := pysplitAux l []

/-- `datetime.time` restricted to hour/minute, as produced by the parsers. -/
structure TimeOfDay where
  hour : Nat
  minute : Nat
deriving DecidableEq, Repr

/-- Python `datetime.datetime.strptime(s, "%H:%M").time()` on a whole string.
The `%H` pattern matches one or two digits denoting 0..23, `%M` one or two
digits denoting 0..59, and the whole input must be consumed; out-of-range
values raise (caught by the caller, giving `none`). -/
def strptimeHM (s : List Char) : Option TimeOfDay :=
  match s.dropWhile (· ≠ ':') with
  | c :: b =>
    if c = ':' ∧ (s.takeWhile (· ≠ ':')) ≠ [] ∧
       (s.takeWhile (· ≠ ':')).length ≤ 2 ∧
       (s.takeWhile (· ≠ ':')).all Char.isDigit ∧
       b ≠ [] ∧ b.length ≤ 2 ∧ b.all Char.isDigit then
      if digitsToNat (s.takeWhile (· ≠ ':')) ≤ 23 ∧ digitsToNat b ≤ 59 then
        some ⟨digitsToNat (s.takeWhile (· ≠ ':')), digitsToNat b⟩
      else none
    else none
  | [] => none

/-- `parse_time` from `babyplot_data.py`: strip, then a bare 1-2 digit hour
`h ≤ 23` means half past `h` (legacy behavior), else a strict `%H:%M` parse,
else `none`. -/
def parse_time (s : List Char) : Option TimeOfDay :=
  let t := pstrip s
  if t = [] then none
  else if t.length ≤ 2 ∧ t.all Char.isDigit then
    if digitsToNat t ≤ 23 then some ⟨digitsToNat t, 30⟩ else none
  else strptimeHM t

/-- The leading-time lexer shared by the breast and diaper token parsers:
`re.match(r"^(\d{1,2}(?::\d{2})?)(.*)$", token)`.  Returns the text matched
by group 1 together with the remainder (group 2).  The quantifiers are
greedy with backtracking: two digits are preferred over one, and the
optional `:\d\d` group is taken when it matches; since `(.*)` always
succeeds, no further backtracking occurs. -/
def timeLex : List Char → Option (List Char × List Char)
  | [] => none
  | c1 :: rest =>
    if c1.isDigit then
      match rest with
      | c2 :: rest2 =>
        if c2.isDigit then
          match rest2 with
          | ':' :: c3 :: c4 :: rest3 =>
            if c3.isDigit && c4.isDigit then some ([c1, c2, ':', c3, c4], rest3)
            else some ([c1, c2], rest2)
          | _ => some ([c1, c2], rest2)
        else
          match rest with
          | ':' :: c3 :: c4 :: rest3 =>
            if c3.isDigit && c4.isDigit then some ([c1, ':', c3, c4], rest3)
            else some ([c1], rest)
          | _ => some ([c1], rest)
      | [] => some ([c1], [])
    else none

/-- `re.findall(r"[LR]?(\d{1,3})", rest)` followed by `int` on each capture:
scanning left to right, every maximal digit run is cut greedily into groups
of at most three digits; the optional `[LR]` never affects which digits are
captured, so it does not appear here. -/
def findNums : List Char → List Nat
  | [] => []
  | [a] => if a.isDigit then [digitsToNat [a]] else []
  | [a, b] =>
    if a.isDigit then
      if b.isDigit then [digitsToNat [a, b]]
      else digitsToNat [a] :: findNums [b]
    else findNums [b]
  | a :: b :: c :: rest =>
    if a.isDigit then
      if b.isDigit then
        if c.isDigit then digitsToNat [a, b, c] :: findNums rest
        else digitsToNat [a, b] :: findNums (c :: rest)
      else digitsToNat [a] :: findNums (b :: c :: rest)
    else findNums (b :: c :: rest)

/-- `_parse_breast_token` from `babyplot_data.py`: strip the token, read the
leading time, then on the stripped remainder collect all `[LR]?(\d{1,3})`
captures; if any are found their sum is the total duration and the note is
dropped, otherwise the nonempty remainder becomes the note. -/
def _parse_breast_token (token : List Char) :
    Option TimeOfDay × Option Nat × Option (List Char) :=
  match timeLex (pstrip token) with
  | none => (none, none, none)
  | some (g1, g2) =>
    let t := parse_time g1
    let rest := pstrip g2
    if rest = [] then (t, none, none)
    else if findNums rest = [] then (t, none, some rest)
    else (t, some (findNums rest).sum, none)

/-- `_parse_diaper_token` from `babyplot_data.py`: strip the token, read the
leading time, and keep the stripped remainder as the note when nonempty. -/
def _parse_diaper_token (token : List Char) :
    Option TimeOfDay × Option (List Char) :=
  match timeLex (pstrip token) with
  | none => (none, none)
  | some (g1, g2) =>
    (parse_time g1, if pstrip g2 = [] then none else some (pstrip g2))

/-- The tail of a volume token after the chosen time group, for
`-?(\d{1,4})$`: an optional hyphen followed by one to four digits ending the
token.  When a hyphen is present but the rest is not 1-4 digits, the
hyphen-less alternative also fails (the remainder then starts with `-`). -/
def amtTail (r : List Char) : Option (List Char) :=
  match r with
  | '-' :: ds =>
    if ds ≠ [] ∧ ds.length ≤ 4 ∧ ds.all Char.isDigit then some ds else none
  | ds =>
    if ds ≠ [] ∧ ds.length ≤ 4 ∧ ds.all Char.isDigit then some ds else none

/-- Candidate splits of a volume token into the group-1 time text and the
remainder, in the backtracking order of `\d{1,2}(?::\d{2})?`: two digits
with the colon group, two digits without it, one digit with the colon
group, one digit alone (the unavailable shapes are omitted). -/
def volCands : List Char → List (List Char × List Char)
  | [] => []
  | [c1] => if c1.isDigit then [([c1], [])] else []
  | c1 :: c2 :: rest2 =>
    if c1.isDigit then
      if c2.isDigit then
        (match rest2 with
         | ':' :: c3 :: c4 :: r =>
           if c3.isDigit && c4.isDigit then [([c1, c2, ':', c3, c4], r)] else []
         | _ => []) ++ [([c1, c2], rest2), ([c1], c2 :: rest2)]
      else
        (match c2, rest2 with
         | ':', c3 :: c4 :: r =>
           if c3.isDigit && c4.isDigit then [([c1, ':', c3, c4], r)] else []
         | _, _ => []) ++ [([c1], c2 :: rest2)]
    else []

/-- First candidate whose remainder matches `-?(\d{1,4})$`. -/
def volFirst : List (List Char × List Char) → Option (List Char × List Char)
  | [] => none
  | (g, r) :: rest =>
    match amtTail r with
    | some ds => some (g, ds)
    | none => volFirst rest

/-- `re.match(r"^(\d{1,2}(?::\d{2})?)-?(\d{1,4})$", token)`, returning the
two captured groups. -/
def reVolMatch (token : List Char) : Option (List Char × List Char) :=
  volFirst (volCands token)

/-- The pumped/formula token handling in `parse_records`
(`babyplot_data.py` lines 145-168): match the volume regex, parse the time
group, convert the amount group with `int`, and accept when the time parsed
(`amt` is never `None` for a digit capture, so only the time gates). -/
def parseVolumeToken (token : List Char) : Option (TimeOfDay × Nat) :=
  match reVolMatch token with
  | none => none
  | some (g1, ds) =>
    match parse_time g1 with
    | none => none
    | some t => some (t, digitsToNat ds)

example : _parse_breast_token ['8', ':', '2', '0', 'L', '1', '0', 'R', '1', '0'] =
    (some ⟨8, 20⟩, some 20, none) := by decide
example : _parse_breast_token ['9'] = (some ⟨9, 30⟩, none, none) := by decide
example : _parse_breast_token ['8', 'x', '5'] = (some ⟨8, 30⟩, some 5, none) := by decide
example : _parse_breast_token ['1', '1', ':', '3', '0', '○'] =
    (some ⟨11, 30⟩, none, some ['○']) := by decide
example : _parse_breast_token ['8', 'L', '1', '2', '3', '4'] =
    (some ⟨8, 30⟩, some 127, none) := by decide
example : _parse_diaper_token ['1', '2', '3'] = (some ⟨12, 30⟩, some ['3']) := by decide
example : _parse_diaper_token ['9', ':', '0', '0', '△'] =
    (some ⟨9, 0⟩, some ['△']) := by decide
example : parseVolumeToken ['0', '9', ':', '0', '0', '-', '6', '0'] =
    some (⟨9, 0⟩, 60) := by decide
example : parseVolumeToken ['0', '9', ':', '0', '0', '-', '6', '0', 'a'] = none := by decide
example : parseVolumeToken ['1', '2', '3'] = some (⟨12, 30⟩, 3) := by decide
example : parseVolumeToken ['8', '5'] = some (⟨8, 30⟩, 5) := by decide
example : parseVolumeToken ['0', '9', ':', '0', '0', '-', '0'] = some (⟨9, 0⟩, 0) := by decide
example : parseVolumeToken ['1', '2', '-'] = none := by decide
example : parseVolumeToken ['9', '9', '1', '1'] = none := by decide
example : parseVolumeToken ['1', '2', ':', '3', '4', '5'] = some (⟨12, 34⟩, 5) := by decide

/-- A cell value of the `weight` column: pandas hands the parser either a
missing value (`NaN`, modelled by `Option.none` at the row level), a number,
or arbitrary non-numeric text (possible when the column came from a CSV). -/
inductive WVal where
  | num (x : ℚ)
  | txt (s : List Char)
deriving DecidableEq

/-- One input row as seen by `parse_records` after `load_raw_df`: a date and
the six optional cells; `none` models a missing column or a `NaN` cell
(`hasattr`/`pd.notna` both fail in those cases).  Dates are abstracted to
naturals; rows whose date is missing are skipped before this point and are
not modelled. -/
structure Row where
  date : Nat
  breast : Option (List Char)
  pumped : Option (List Char)
  formula : Option (List Char)
  urine : Option (List Char)
  stool : Option (List Char)
  weight : Option WVal
deriving DecidableEq

/-- Accepted direct-breastfeeding event (`breast_records` entries). -/
structure BreastRec where
  date : Nat
  time : TimeOfDay
  length : Option Nat
  note : Option (List Char)
deriving DecidableEq

/-- Accepted pumped/formula event (`pumped_records`/`formula_records`). -/
structure VolRec where
  date : Nat
  time : TimeOfDay
  amount : Nat
deriving DecidableEq

/-- Accepted urine/stool event (`urine_records`/`stool_records`). -/
structure DiaperRec where
  date : Nat
  time : TimeOfDay
  note : Option (List Char)
deriving DecidableEq

/-- One `weight_records` entry. -/
structure WeightRec where
  date : Nat
  weight : WVal
deriving DecidableEq

/-- One `count_records` entry. -/
structure CountRec where
  date : Nat
  breast : Nat
  pumped : Nat
  formula : Nat
  urine : Nat
  stool : Nat
deriving DecidableEq

/-- Breast events contributed by one row: split the cell, parse each token,
keep those with a truthy time (`if t:`). -/
def rowBreastRecs (r : Row) : List BreastRec :=
  match r.breast with
  | none => []
  | some cell =>
    (pysplit cell).filterMap fun tok =>
      match _parse_breast_token tok with
      | (some t, len, note) => some ⟨r.date, t, len, note⟩
      | (none, _, _) => none

/-- Volume events contributed by one cell (shared by pumped and formula, the
two code blocks being identical). -/
def cellVolRecs (d : Nat) (cell : Option (List Char)) : List VolRec :=
  match cell with
  | none => []
  | some s =>
    (pysplit s).filterMap fun tok =>
      match parseVolumeToken tok with
      | some (t, amt) => some ⟨d, t, amt⟩
      | none => none

/-- Diaper events contributed by one cell (shared by urine and stool). -/
def cellDiaperRecs (d : Nat) (cell : Option (List Char)) : List DiaperRec :=
  match cell with
  | none => []
  | some s =>
    (pysplit s).filterMap fun tok =>
      match _parse_diaper_token tok with
      | (some t, note) => some ⟨d, t, note⟩
      | (none, _) => none

/-- Weight samples contributed by one row (`babyplot_data.py` lines
184-186): any value passing `pd.notna` is appended as-is. -/
def rowWeightRecs (r : Row) : List WeightRec :=
  match r.weight with
  | none => []
  | some w => [⟨r.date, w⟩]

/-- `breast_records` accumulated over all rows, in row order. -/
def breastRecs (rows : List Row) : List BreastRec :=
  rows.flatMap rowBreastRecs

/-- `pumped_records` accumulated over all rows. -/
def pumpedRecs (rows : List Row) : List VolRec :=
  rows.flatMap fun r => cellVolRecs r.date r.pumped

/-- `formula_records` accumulated over all rows. -/
def formulaRecs (rows : List Row) : List VolRec :=
  rows.flatMap fun r => cellVolRecs r.date r.formula

/-- `urine_records` accumulated over all rows. -/
def urineRecs (rows : List Row) : List DiaperRec :=
  rows.flatMap fun r => cellDiaperRecs r.date r.urine

/-- `stool_records` accumulated over all rows. -/
def stoolRecs (rows : List Row) : List DiaperRec :=
  rows.flatMap fun r => cellDiaperRecs r.date r.stool

/-- `weight_records` accumulated over all rows. -/
def weightRecs (rows : List Row) : List WeightRec :=
  rows.flatMap rowWeightRecs

/-- `sorted({...})` on a list of dates: the ascending list of the distinct
dates.  Used both by `parse_records` (line 190) and by the per-day
aggregation in `babyplot.py` (lines 97-102). -/
def sortedDates (ds : List Nat) : List Nat :=
  List.insertionSort (· ≤ ·) ds.dedup

/-- The five event-date lists concatenated, as in
`breast_records + pumped_records + formula_records + urine_records +
stool_records`. -/
def eventDates (b : List BreastRec) (p f : List VolRec)
    (u s : List DiaperRec) : List Nat :=
  b.map BreastRec.date ++ p.map VolRec.date ++ f.map VolRec.date ++
    u.map DiaperRec.date ++ s.map DiaperRec.date

/-- `count_records` built from the five event lists (`babyplot_data.py`
lines 188-197): for each date of the union, in ascending order, the number
of events of each category with that date. -/
def countTable (b : List BreastRec) (p f : List VolRec)
    (u s : List DiaperRec) : List CountRec :=
  (sortedDates (eventDates b p f u s)).map fun d =>
    { date := d
      breast := (b.filter fun r => r.date == d).length
      pumped := (p.filter fun r => r.date == d).length
      formula := (f.filter fun r => r.date == d).length
      urine := (u.filter fun r => r.date == d).length
      stool := (s.filter fun r => r.date == d).length }

/-- The `count` DataFrame of `parse_records` for a whole input table. -/
def countRecords (rows : List Row) : List CountRec :=
  countTable (breastRecs rows) (pumpedRecs rows) (formulaRecs rows)
    (urineRecs rows) (stoolRecs rows)

/-- `df[df['date'] == date]['amount'].sum()` with the empty guard of
`babyplot.py` lines 150-151 (an empty selection sums to 0 either way). -/
def amountSum (l : List VolRec) (d : Nat) : Nat :=
  ((l.filter fun r => r.date == d).map VolRec.amount).sum

/-- `breast_df[...]['length'].sum()` (line 152): pandas sums skip missing
values, so a `None` duration counts as 0. -/
def lengthSum (l : List BreastRec) (d : Nat) : Nat :=
  ((l.filter fun r => r.date == d).map fun r => r.length.getD 0).sum

/-- `feeding_totals` of `babyplot.py` (lines 146-154): per date of the
union of the five event lists, in ascending order, the summed pumped and
formula volumes. -/
def feedingTotals (b : List BreastRec) (p f : List VolRec)
    (u s : List DiaperRec) : List (Nat × Nat × Nat) :=
  (sortedDates (eventDates b p f u s)).map fun d => (d, amountSum p d, amountSum f d)

/-- `direct_totals` of `babyplot.py` (lines 146-154): per date, the summed
direct-feeding minutes. -/
def directTotals (b : List BreastRec) (p f : List VolRec)
    (u s : List DiaperRec) : List (Nat × Nat) :=
  (sortedDates (eventDates b p f u s)).map fun d => (d, lengthSum b d)

/-- `feeding_totals` computed from a raw input table. -/
def feedingTotalsOf (rows : List Row) : List (Nat × Nat × Nat) :=
  feedingTotals (breastRecs rows) (pumpedRecs rows) (formulaRecs rows)
    (urineRecs rows) (stoolRecs rows)

/-- `direct_totals` computed from a raw input table. -/
def directTotalsOf (rows : List Row) : List (Nat × Nat) :=
  directTotals (breastRecs rows) (pumpedRecs rows) (formulaRecs rows)
    (urineRecs rows) (stoolRecs rows)

example :
    countRecords
      [⟨1, some ['8'], none, none, some ['7', ' ', '9'], none, none⟩,
       ⟨0, none, some ['9', '-', '5', '0'], none, none, none, none⟩] =
    [⟨0, 0, 1, 0, 0, 0⟩, ⟨1, 1, 0, 0, 2, 0⟩] := by decide

/-- Valid `HH:MM` form per spec section 4.1 rule 3: exactly one colon
separating an hour written with one or two digits denoting 0-23 from a
minute written with one or two digits denoting 0-59 (components zero-padded
or not). -/
def validHHMM (s : List Char) : Prop :=
  ∃ a b : List Char, s = a ++ ':' :: b ∧
    a ≠ [] ∧ a.length ≤ 2 ∧ a.all Char.isDigit ∧ digitsToNat a ≤ 23 ∧
    b ≠ [] ∧ b.length ≤ 2 ∧ b.all Char.isDigit ∧ digitsToNat b ≤ 59

/-- The lexical shapes `\d{1,2}(?::\d{2})?` can match: a bare hour of one
or two digits, optionally followed by a colon and two minute digits. -/
inductive timeShape : List Char → Prop where
  | bare1 (a : Char) : a.isDigit = true → timeShape [a]
  | bare2 (a b : Char) : a.isDigit = true → b.isDigit = true → timeShape [a, b]
  | hm1 (a c d : Char) : a.isDigit = true → c.isDigit = true →
      d.isDigit = true → timeShape [a, ':', c, d]
  | hm2 (a b c d : Char) : a.isDigit = true → b.isDigit = true →
      c.isDigit = true → d.isDigit = true → timeShape [a, b, ':', c, d]

/-- Spec-side: the maximal runs of consecutive decimal digits of a string,
in order. -/
def digitRuns : List Char → List (List Char)
  | [] => []
  | [c] => if c.isDigit then [[c]] else []
  | c :: d :: rest =>
    if c.isDigit then
      if d.isDigit then
        match digitRuns (d :: rest) with
        | r :: rs => (c :: r) :: rs
        | [] => [[c]]
      else [c] :: digitRuns (d :: rest)
    else digitRuns (d :: rest)

/-- Spec-side: cut a digit run greedily into groups of at most three
digits, returning their values. -/
def chunk3 : List Char → List Nat
  | [] => []
  | [a] => [digitsToNat [a]]
  | [a, b] => [digitsToNat [a, b]]
  | a :: b :: c :: rest => digitsToNat [a, b, c] :: chunk3 rest

/-- Spec-side: the sum of the values of every maximal digit run of the
string, each run cut greedily into groups of at most three digits. -/
def specRunSum (l : List Char) : Nat :=
  ((digitRuns l).flatMap chunk3).sum

example : digitRuns ['L', '1', '5', 'R', '2', '0'] = [['1', '5'], ['2', '0']] := by decide
example : specRunSum ['L', '1', '2', '3', '4', '5'] = 168 := by decide
example : specRunSum ['x', '5'] = 5 := by decide

/- ### Character and strip lemmas -/

theorem digit_not_ws {c : Char} (h : c.isDigit = true) : c.isWhitespace = false := by
  simp only [Char.isWhitespace, Bool.or_eq_true, decide_eq_true_eq] at *
  by_contra hws
  simp only [Bool.not_eq_false, Bool.or_eq_true, decide_eq_true_eq] at hws
  rcases hws with ((h1 | h1) | h1) | h1 <;> subst h1 <;> simp [Char.isDigit] at h

theorem digit_ne_colon {c : Char} (h : c.isDigit = true) : c ≠ ':' := by
  intro hc; subst hc; simp [Char.isDigit] at h

theorem dropWhile_eq_self_of_false {p : Char → Bool} {l : List Char}
    (h : ∀ c ∈ l, p c = false) : l.dropWhile p = l := by
  cases l with
  | nil => rfl
  | cons c rest =>
    rw [List.dropWhile_cons, h c (List.mem_cons_self c rest)]
    simp

theorem pstrip_eq_self {l : List Char}
    (h : ∀ c ∈ l, c.isWhitespace = false) : pstrip l = l := by
  unfold pstrip
  rw [dropWhile_eq_self_of_false h,
      dropWhile_eq_self_of_false (fun c hc => h c (List.mem_reverse.mp hc)),
      List.reverse_reverse]

theorem pstrip_all_digits {l : List Char}
    (h : l.all Char.isDigit = true) : pstrip l = l := by
  refine pstrip_eq_self fun c hc => digit_not_ws ?_
  exact List.all_eq_true.mp h c hc

example : pstrip [' ', '7', ' '] = ['7'] := by decide

theorem takeWhile_append_all {p : Char → Bool} {a : List Char} (l : List Char)
    (ha : ∀ c ∈ a, p c = true) : (a ++ l).takeWhile p = a ++ l.takeWhile p := by
  induction a with
  | nil => simp
  | cons c rest ih =>
    rw [List.cons_append, List.takeWhile_cons, ha c (List.mem_cons_self c rest)]
    simp only [if_true]
    exact congrArg (c :: ·) (ih fun x hx => ha x (List.mem_cons_of_mem c hx))

theorem dropWhile_append_all {p : Char → Bool} {a : List Char} (l : List Char)
    (ha : ∀ c ∈ a, p c = true) : (a ++ l).dropWhile p = l.dropWhile p := by
  induction a with
  | nil => simp
  | cons c rest ih =>
    rw [List.cons_append, List.dropWhile_cons, ha c (List.mem_cons_self c rest)]
    simp only [if_true]
    exact ih fun x hx => ha x (List.mem_cons_of_mem c hx)

/- ### Lexer decomposition lemmas -/

theorem timeLex_append {tok g1 g2 : List Char}
    (h : timeLex tok = some (g1, g2)) : tok = g1 ++ g2 := by
  unfold timeLex at h
  repeat' split at h
  all_goals simp only [Option.some.injEq, Prod.mk.injEq, reduceCtorEq] at h
  all_goals obtain ⟨h1, h2⟩ := h
  all_goals subst h1
  all_goals subst h2
  all_goals simp_all

theorem timeLex_shape {tok g1 g2 : List Char}
    (h : timeLex tok = some (g1, g2)) : timeShape g1 := by
  unfold timeLex at h
  repeat' split at h
  all_goals simp only [Option.some.injEq, Prod.mk.injEq, reduceCtorEq] at h
  all_goals obtain ⟨h1, h2⟩ := h
  all_goals subst h1
  all_goals subst h2
  all_goals try simp_all only [Bool.and_eq_true]
  all_goals constructor <;> first | assumption | simp_all

theorem amtTail_spec {r ds : List Char} (h : amtTail r = some ds) :
    (r = ds ∨ r = '-' :: ds) ∧ ds ≠ [] ∧ ds.length ≤ 4 ∧
      ds.all Char.isDigit = true := by
  unfold amtTail at h
  repeat' split at h
  all_goals simp_all

theorem volFirst_mem {cs : List (List Char × List Char)} {g ds : List Char}
    (h : volFirst cs = some (g, ds)) :
    ∃ r, (g, r) ∈ cs ∧ amtTail r = some ds := by
  induction cs with
  | nil => simp [volFirst] at h
  | cons pr rest ih =>
    obtain ⟨gp, rp⟩ := pr
    unfold volFirst at h
    split at h
    · obtain ⟨h1, h2⟩ := Prod.mk.injEq .. ▸ Option.some.injEq .. ▸ h
      exact ⟨rp, by simp_all⟩
    · obtain ⟨r, hmem, hr⟩ := ih h
      exact ⟨r, List.mem_cons_of_mem _ hmem, hr⟩

theorem volCands_append {tok g r : List Char}
    (h : (g, r) ∈ volCands tok) : tok = g ++ r := by
  unfold volCands at h
  repeat' split at h
  all_goals simp only [List.mem_append, List.mem_cons, List.mem_singleton,
    List.not_mem_nil, or_false, false_or, Prod.mk.injEq] at h
  all_goals rcases h with ⟨rfl, rfl⟩ | ⟨rfl, rfl⟩ | ⟨rfl, rfl⟩
  all_goals simp_all

/- ### findNums and digitRuns -/

theorem length_dropWhile_le (p : Char → Bool) (l : List Char) :
    (l.dropWhile p).length ≤ l.length := by
  induction l with
  | nil => simp
  | cons c rest ih =>
    rw [List.dropWhile_cons]
    split
    · exact Nat.le_trans ih (Nat.le_succ _)
    · exact Nat.le_refl _

theorem dropWhile_head_false {p : Char → Bool} :
    ∀ {l : List Char} {d : Char} {t : List Char},
      l.dropWhile p = d :: t → p d = false := by
  intro l
  induction l with
  | nil => intro d t h; simp at h
  | cons a l2 ih =>
    intro d t h
    rw [List.dropWhile_cons] at h
    split at h
    · exact ih h
    · obtain ⟨rfl, rfl⟩ := List.cons.injEq .. ▸ h
      simp_all

theorem findNums_cons_nonDigit {c : Char} (h : c.isDigit = false)
    (l : List Char) : findNums (c :: l) = findNums l := by
  match l with
  | [] => simp [findNums, h]
  | [b] => simp [findNums, h]
  | b :: d :: t => simp [findNums, h]

theorem findNums_cons_digit_ne_nil {a : Char} (h : a.isDigit = true)
    (l : List Char) : findNums (a :: l) ≠ [] := by
  match l with
  | [] => simp [findNums, h]
  | [b] => simp only [findNums, h, if_true]; split <;> simp
  | b :: d :: t =>
    simp only [findNums, h, if_true]
    split <;> try split
    all_goals simp

theorem findNums_eq_nil_iff {l : List Char} :
    findNums l = [] ↔ l.all (fun c => !c.isDigit) = true := by
  induction l with
  | nil => simp [findNums]
  | cons c rest ih =>
    by_cases hc : c.isDigit
    · simp [findNums_cons_digit_ne_nil hc, hc]
    · rw [findNums_cons_nonDigit (Bool.of_not_eq_true hc)]
      simp [ih, Bool.of_not_eq_true hc]

theorem digitRuns_cons_nonDigit {c : Char} (h : c.isDigit = false)
    (l : List Char) : digitRuns (c :: l) = digitRuns l := by
  match l with
  | [] => simp [digitRuns, h]
  | b :: t => simp [digitRuns, h]

theorem digitRuns_run_append {run : List Char} (hne : run ≠ [])
    (hall : ∀ c ∈ run, c.isDigit = true) {rest : List Char}
    (hrest : ∀ d t, rest = d :: t → d.isDigit = false) :
    digitRuns (run ++ rest) = run :: digitRuns rest := by
  induction run with
  | nil => exact absurd rfl hne
  | cons a run2 ih =>
    have ha : a.isDigit = true := hall a (List.mem_cons_self a run2)
    cases run2 with
    | nil =>
      cases rest with
      | nil => simp [digitRuns, ha]
      | cons d t =>
        have hd := hrest d t rfl
        simp [digitRuns, ha, hd, digitRuns_cons_nonDigit hd]
    | cons b run3 =>
      have hb : b.isDigit = true := hall b (by simp)
      have ih2 := ih (by simp) fun c hc => hall c (List.mem_cons_of_mem a hc)
      simp only [List.cons_append] at ih2 ⊢
      rw [digitRuns, if_pos ha, if_pos hb, ih2]

theorem findNums_run_append_fuel :
    ∀ (n : Nat) (run : List Char), run.length ≤ n → run ≠ [] →
      (∀ c ∈ run, c.isDigit = true) →
      ∀ rest : List Char, (∀ d t, rest = d :: t → d.isDigit = false) →
      findNums (run ++ rest) = chunk3 run ++ findNums rest := by
  intro n
  induction n with
  | zero =>
    intro run hlen hne _ _ _
    cases run with
    | nil => exact absurd rfl hne
    | cons a r => simp at hlen
  | succ n ih =>
    intro run hlen hne hall rest hrest
    match run with
    | [a] =>
      have ha : a.isDigit = true := hall a (by simp)
      match rest with
      | [] => simp [findNums, chunk3, ha]
      | [d] =>
        have hd := hrest d [] rfl
        simp [findNums, chunk3, ha, hd]
      | d :: e :: t =>
        have hd := hrest d (e :: t) rfl
        simp [findNums, chunk3, ha, hd]
    | [a, b] =>
      have ha : a.isDigit = true := hall a (by simp)
      have hb : b.isDigit = true := hall b (by simp)
      match rest with
      | [] => simp [findNums, chunk3, ha, hb]
      | d :: t =>
        have hd := hrest d t rfl
        simp [findNums, chunk3, ha, hb, hd]
    | a :: b :: c :: run3 =>
      have ha : a.isDigit = true := hall a (by simp)
      have hb : b.isDigit = true := hall b (by simp)
      have hc : c.isDigit = true := hall c (by simp)
      match run3 with
      | [] => simp [findNums, chunk3, ha, hb, hc]
      | e :: run4 =>
        have hlen2 : (e :: run4).length ≤ n := by
          simp only [List.length_cons] at hlen ⊢; omega
        have step := ih (e :: run4) hlen2 (by simp)
          (fun x hx => hall x (by simp [List.mem_cons] at hx ⊢; tauto)) rest hrest
        simp only [List.cons_append, List.append_eq, findNums, ha, hb, hc,
          if_true, chunk3]
        simp only [List.cons_append] at step
        rw [step]

theorem findNums_eq_specRuns (l : List Char) :
    findNums l = (digitRuns l).flatMap chunk3 := by
  suffices H : ∀ (n : Nat) (l : List Char), l.length ≤ n →
      findNums l = (digitRuns l).flatMap chunk3 from H l.length l (Nat.le_refl _)
  intro n
  induction n with
  | zero =>
    intro l hl
    have : l = [] := List.eq_nil_of_length_eq_zero (Nat.le_zero.mp hl)
    subst this; rfl
  | succ n ih =>
    intro l hl
    cases l with
    | nil => rfl
    | cons c rest =>
      by_cases hc : c.isDigit
      · have hsplit : c :: rest =
            (c :: rest.takeWhile Char.isDigit) ++ rest.dropWhile Char.isDigit := by
          simp [List.takeWhile_append_dropWhile]
        have hall : ∀ x ∈ c :: rest.takeWhile Char.isDigit, x.isDigit = true := by
          intro x hx
          rcases List.mem_cons.mp hx with rfl | hx2
          · exact hc
          · exact List.mem_takeWhile_imp hx2
        have hrest : ∀ d t, rest.dropWhile Char.isDigit = d :: t →
            d.isDigit = false := fun d t hdt => dropWhile_head_false hdt
        have hlen2 : (rest.dropWhile Char.isDigit).length ≤ n := by
          have h1 := length_dropWhile_le Char.isDigit rest
          simp only [List.length_cons] at hl; omega
        rw [hsplit, findNums_run_append_fuel (c :: rest.takeWhile Char.isDigit).length
              _ (Nat.le_refl _) (by simp) hall _ hrest,
            digitRuns_run_append (by simp) hall hrest]
        rw [List.flatMap_cons, ih _ hlen2]
      · have hc2 : c.isDigit = false := Bool.of_not_eq_true hc
        rw [findNums_cons_nonDigit hc2, digitRuns_cons_nonDigit hc2]
        exact ih rest (by simp only [List.length_cons] at hl; omega)

theorem findNums_nil_iff_not_any {l : List Char} :
    findNums l = [] ↔ l.any Char.isDigit = false := by
  rw [findNums_eq_nil_iff]
  constructor
  · intro h
    rw [List.any_eq_false]
    intro x hx
    have := List.all_eq_true.mp h x hx
    simpa using this
  · intro h
    rw [List.all_eq_true]
    intro x hx
    have := List.any_eq_false.mp h x hx
    simpa using this

/-- Evaluation of `parse_time` on a nonempty all-digit string (the
`\d{1,2}` branch). -/
theorem parse_time_bare {s : List Char} (hne : s ≠ []) (hlen : s.length ≤ 2)
    (hall : s.all Char.isDigit = true) :
    parse_time s = if digitsToNat s ≤ 23 then some ⟨digitsToNat s, 30⟩
      else none := by
  unfold parse_time
  rw [pstrip_all_digits hall, if_neg hne, if_pos ⟨hlen, hall⟩]

theorem strptimeHM_valid {s : List Char} {t : TimeOfDay}
    (h : strptimeHM s = some t) : validHHMM s := by
  unfold strptimeHM at h
  split at h
  case h_1 c b heq =>
    split at h
    case isTrue hcond =>
      split at h
      case isTrue hrange =>
        obtain ⟨hc, h1, h2, h3, h4, h5, h6⟩ := hcond
        subst hc
        refine ⟨s.takeWhile (· ≠ ':'), b, ?_, h1, h2, h3, hrange.1, h4, h5, h6,
          hrange.2⟩
        conv_lhs => rw [← List.takeWhile_append_dropWhile (fun x => decide (x ≠ ':')) s]
        rw [heq]
      case isFalse => exact absurd h (by simp)
    case isFalse => exact absurd h (by simp)
  case h_2 => exact absurd h (by simp)

/-- Evaluation of `timeLex` when the token starts with two digits not
followed by a colon group. -/
theorem timeLex_dd {a b c : Char} {rest : List Char} (ha : a.isDigit = true)
    (hb : b.isDigit = true) (hne : c ≠ ':') :
    timeLex (a :: b :: c :: rest) = some ([a, b], c :: rest) := by
  unfold timeLex
  simp only [ha, hb, if_true]
  split
  · next heq =>
    exact absurd (List.cons.injEq .. ▸ heq).1 hne
  · rfl

/-- Full evaluation of `_parse_breast_token` on a whitespace-free token
whose leading time group is recognized by the lexer. -/
theorem breast_eval {tok g1 g2 : List Char}
    (hnws : ∀ c ∈ tok, c.isWhitespace = false)
    (htl : timeLex tok = some (g1, g2)) :
    _parse_breast_token tok =
      (parse_time g1,
       if findNums g2 = [] then none else some (findNums g2).sum,
       if g2 = [] then none
       else if findNums g2 = [] then some g2 else none) := by
  have happ := timeLex_append htl
  have hg2 : ∀ c ∈ g2, c.isWhitespace = false := fun c hc =>
    hnws c (happ ▸ List.mem_append_right g1 hc)
  unfold _parse_breast_token
  rw [pstrip_eq_self hnws, htl]
  simp only [pstrip_eq_self hg2]
  by_cases h0 : g2 = []
  · subst h0
    simp [findNums]
  · rw [if_neg h0]
    by_cases h1 : findNums g2 = []
    · simp [h0, h1]
    · simp [h0, h1]

/-- Full evaluation of `_parse_diaper_token` on a whitespace-free token
whose leading time group is recognized by the lexer. -/
theorem diaper_eval {tok g1 g2 : List Char}
    (hnws : ∀ c ∈ tok, c.isWhitespace = false)
    (htl : timeLex tok = some (g1, g2)) :
    _parse_diaper_token tok =
      (parse_time g1, if g2 = [] then none else some g2) := by
  have happ := timeLex_append htl
  have hg2 : ∀ c ∈ g2, c.isWhitespace = false := fun c hc =>
    hnws c (happ ▸ List.mem_append_right g1 hc)
  unfold _parse_diaper_token
  rw [pstrip_eq_self hnws, htl]
  simp only [pstrip_eq_self hg2]

/- ## Claim theorems -/

/-- C4: every all-digit string of length 1-2 parses to half past that hour
when the value is at most 23 and is rejected above 23; the string `24` is
rejected; and every whitespace-free non-all-digit string that is not a
valid `HH:MM` form is rejected. -/
theorem parse_time_bare_hour_spec :
    (∀ s : List Char, s ≠ [] → s.length ≤ 2 → s.all Char.isDigit = true →
      parse_time s = if digitsToNat s ≤ 23 then some ⟨digitsToNat s, 30⟩
        else none) ∧
    parse_time ['2', '4'] = none ∧
    (∀ s : List Char, (∀ c ∈ s, c.isWhitespace = false) →
      s.all Char.isDigit = false → ¬ validHHMM s → parse_time s = none) := by
  refine ⟨fun s hne hlen hall => parse_time_bare hne hlen hall, by decide, ?_⟩
  intro s hnws hnd hnv
  have hne : s ≠ [] := by
    intro hsnil
    subst hsnil
    simp at hnd
  unfold parse_time
  rw [pstrip_eq_self hnws, if_neg hne,
      if_neg (fun hand => absurd hand.2 (by simp [hnd]))]
  cases hopt : strptimeHM s with
  | none => rfl
  | some t => exact absurd (strptimeHM_valid hopt) hnv

/-- Witness for C4 at the inputs `7` and `x`. -/
theorem parse_time_bare_hour_spec_witness :
    parse_time ['7'] = some ⟨7, 30⟩ ∧ parse_time ['x'] = none := by
  constructor
  · have h := parse_time_bare_hour_spec.1 ['7'] (by decide) (by decide) (by decide)
    rw [h]
    decide
  · refine parse_time_bare_hour_spec.2.2 ['x'] (by decide) (by decide) ?_
    rintro ⟨a, b, heq, ha, -, -, -, -, -, -, -⟩
    cases a with
    | nil => simp at heq
    | cons x xs =>
      simp only [List.cons_append, List.cons.injEq] at heq
      obtain ⟨rfl, heq2⟩ := heq
      cases xs <;> simp at heq2

/-- C7: every `H:MM` or `HH:MM` string with hour 0-23 and minute 0-59
parses back to exactly that (hour, minute) pair. -/
theorem parse_time_roundtrip {a b : List Char}
    (ha1 : a ≠ []) (ha2 : a.length ≤ 2) (ha3 : a.all Char.isDigit = true)
    (ha4 : digitsToNat a ≤ 23) (hb1 : b.length = 2)
    (hb2 : b.all Char.isDigit = true) (hb3 : digitsToNat b ≤ 59) :
    parse_time (a ++ ':' :: b) = some ⟨digitsToNat a, digitsToNat b⟩ := by
  have hadig := List.all_eq_true.mp ha3
  have hbdig := List.all_eq_true.mp hb2
  have hnws : ∀ c ∈ a ++ ':' :: b, c.isWhitespace = false := by
    intro c hc
    rcases List.mem_append.mp hc with h | h
    · exact digit_not_ws (hadig c h)
    · rcases List.mem_cons.mp h with rfl | h2
      · decide
      · exact digit_not_ws (hbdig c h2)
  have hpcolon : ∀ c ∈ a, (fun x => decide (x ≠ ':')) c = true := by
    intro c hc
    simp [digit_ne_colon (hadig c hc)]
  have htw : (a ++ ':' :: b).takeWhile (fun x => decide (x ≠ ':')) = a := by
    rw [takeWhile_append_all _ hpcolon, List.takeWhile_cons]
    simp
  have hdw : (a ++ ':' :: b).dropWhile (fun x => decide (x ≠ ':')) = ':' :: b := by
    rw [dropWhile_append_all _ hpcolon, List.dropWhile_cons]
    simp
  have hbne : b ≠ [] := by
    intro hb0
    subst hb0
    simp at hb1
  unfold parse_time
  rw [pstrip_eq_self hnws, if_neg (by simp),
      if_neg (fun hand => by
        have := List.all_eq_true.mp hand.2 ':' (by simp)
        simp at this)]
  unfold strptimeHM
  split
  case h_1 c bb heq2 =>
    rw [hdw] at heq2
    obtain ⟨rfl, rfl⟩ := List.cons.injEq .. ▸ heq2
    rw [htw, if_pos ⟨rfl, ha1, ha2, ha3, hbne, Nat.le_of_eq hb1, hb2⟩,
        if_pos ⟨ha4, hb3⟩]
  case h_2 heq2 =>
    rw [hdw] at heq2
    simp at heq2

/-- Witness for C7 at the input `8:20`. -/
theorem parse_time_roundtrip_witness :
    parse_time ['8', ':', '2', '0'] = some ⟨8, 20⟩ := by
  have h := @parse_time_roundtrip ['8'] ['2', '0'] (by decide) (by decide)
    (by decide) (by decide) (by decide) (by decide) (by decide)
  simp only [List.cons_append, List.nil_append] at h
  rw [h]
  decide

/-- C10: a diaper token starting with three or more digits is read as a
two-digit bare hour (half past it when at most 23) with the remaining
characters, starting with the third digit, kept as the note. -/
theorem diaper_three_digit_token {a b c : Char} {rest : List Char}
    (hnws : ∀ ch ∈ a :: b :: c :: rest, ch.isWhitespace = false)
    (ha : a.isDigit = true) (hb : b.isDigit = true) (hc : c.isDigit = true)
    (hle : digitsToNat [a, b] ≤ 23) :
    _parse_diaper_token (a :: b :: c :: rest) =
      (some ⟨digitsToNat [a, b], 30⟩, some (c :: rest)) := by
  have htl := @timeLex_dd a b c rest ha hb (digit_ne_colon hc)
  rw [diaper_eval hnws htl,
      parse_time_bare (by simp) (by simp) (by simp [ha, hb]), if_pos hle]
  simp

/-- Witness for C10 at the token `123`. -/
theorem diaper_three_digit_token_witness :
    _parse_diaper_token ['1', '2', '3'] = (some ⟨12, 30⟩, some ['3']) := by
  have h := @diaper_three_digit_token '1' '2' '3' [] (by decide) (by decide)
    (by decide) (by decide) (by decide)
  rw [h]
  decide

/-- C1 counterexample: on the token `8x5` the parser returns duration 5 and
no note, not the duration `none` and note `x5` the claim predicts (the
remainder `x5` holds neither an L-part nor an R-part, and its trailing text
is nonempty). -/
theorem breast_note_counterexample :
    _parse_breast_token ['8', 'x', '5'] = (some ⟨8, 30⟩, some 5, none) ∧
    _parse_breast_token ['8', 'x', '5'] ≠ (some ⟨8, 30⟩, none, some ['x', '5']) := by
  decide

/-- C1 (amended): for every whitespace-free breast token with a recognized
time prefix, when the remainder holds any digit the duration is the sum of
its maximal digit runs cut greedily into groups of at most three digits and
the note is dropped; when it holds no digit the duration is `none` and the
nonempty remainder becomes the note. -/
theorem breast_token_amended {tok g1 g2 : List Char} {t : TimeOfDay}
    (hnws : ∀ ch ∈ tok, ch.isWhitespace = false)
    (htl : timeLex tok = some (g1, g2))
    (ht : parse_time g1 = some t) :
    _parse_breast_token tok =
      (some t,
       if g2.any Char.isDigit then some (specRunSum g2) else none,
       if g2.any Char.isDigit ∨ g2 = [] then none else some g2) := by
  rw [breast_eval hnws htl, ht]
  by_cases hd : g2.any Char.isDigit = true
  · have hne : findNums g2 ≠ [] := by
      rw [ne_eq, findNums_nil_iff_not_any]
      simp [hd]
    have hg2ne : g2 ≠ [] := by
      rintro rfl
      simp at hd
    have hsum : (findNums g2).sum = specRunSum g2 := by
      rw [findNums_eq_specRuns]
      rfl
    simp [hne, hd, hg2ne, hsum]
  · have hd2 : g2.any Char.isDigit = false := by simpa using hd
    have hnil : findNums g2 = [] := findNums_nil_iff_not_any.mpr hd2
    by_cases hg : g2 = []
    · subst hg
      simp [hnil, hd2]
    · simp [hnil, hd2, hg]

/-- Witness for C1 (amended) at the token `8:20L10R10`. -/
theorem breast_token_amended_witness :
    _parse_breast_token ['8', ':', '2', '0', 'L', '1', '0', 'R', '1', '0'] =
      (some ⟨8, 20⟩, some 20, none) := by
  have h := @breast_token_amended
    ['8', ':', '2', '0', 'L', '1', '0', 'R', '1', '0']
    ['8', ':', '2', '0'] ['L', '1', '0', 'R', '1', '0'] ⟨8, 20⟩
    (by decide) (by decide) (by decide)
  rw [h]
  decide

/-- C9: for every whitespace-free breast token with a recognized time
prefix whose remainder holds at least one digit, the parser returns no note
and a duration equal to the sum of every maximal digit run of the
remainder, each run cut greedily into groups of at most three digits,
whether or not preceded by an `L` or `R` marker. -/
theorem breast_digit_runs {tok g1 g2 : List Char} {t : TimeOfDay}
    (hnws : ∀ ch ∈ tok, ch.isWhitespace = false)
    (htl : timeLex tok = some (g1, g2))
    (ht : parse_time g1 = some t)
    (hdig : g2.any Char.isDigit = true) :
    _parse_breast_token tok = (some t, some (specRunSum g2), none) := by
  rw [breast_eval hnws htl, ht]
  have hne : findNums g2 ≠ [] := by
    rw [ne_eq, findNums_nil_iff_not_any]
    simp [hdig]
  have hg2ne : g2 ≠ [] := by
    rintro rfl
    simp at hdig
  have hsum : (findNums g2).sum = specRunSum g2 := by
    rw [findNums_eq_specRuns]
    rfl
  simp [hne, hg2ne, hsum]

/-- Witness for C9 at the token `11:30L5R10x2`. -/
theorem breast_digit_runs_witness :
    _parse_breast_token
        ['1', '1', ':', '3', '0', 'L', '5', 'R', '1', '0', 'x', '2'] =
      (some ⟨11, 30⟩, some 17, none) := by
  have h := @breast_digit_runs
    ['1', '1', ':', '3', '0', 'L', '5', 'R', '1', '0', 'x', '2']
    ['1', '1', ':', '3', '0'] ['L', '5', 'R', '1', '0', 'x', '2'] ⟨11, 30⟩
    (by decide) (by decide) (by decide) (by decide)
  rw [h]
  decide

/- ### Volume token lemmas -/

theorem reVolMatch_last_digit {tok g ds : List Char}
    (h : reVolMatch tok = some (g, ds)) :
    ∃ pre d, d.isDigit = true ∧ tok = pre ++ [d] := by
  obtain ⟨r, hmem, hamt⟩ := volFirst_mem h
  have happ := volCands_append hmem
  obtain ⟨hshape, hne, hlen, hdig⟩ := amtTail_spec hamt
  rcases List.eq_nil_or_concat ds with rfl | ⟨ds2, d, rfl⟩
  · exact absurd rfl hne
  · refine ⟨?_, d, List.all_eq_true.mp hdig d (by simp), ?_⟩
    · exact g ++ (if r = '-' :: (ds2 ++ [d]) then '-' :: ds2 else ds2)
    · rcases hshape with rfl | rfl
      · rw [happ]
        simp
      · rw [happ]
        simp

theorem parseVolumeToken_trailing_none {tok : List Char} {c : Char}
    (hc : c.isDigit = false) : parseVolumeToken (tok ++ [c]) = none := by
  cases hm : reVolMatch (tok ++ [c]) with
  | none => simp [parseVolumeToken, hm]
  | some gds =>
    obtain ⟨g, ds⟩ := gds
    obtain ⟨pre, d, hd, happ⟩ := reVolMatch_last_digit hm
    have h1 : (tok ++ [c]).getLast? = some c := List.getLast?_concat tok
    rw [happ, List.getLast?_concat] at h1
    obtain rfl : d = c := Option.some.injEq .. ▸ h1
    rw [hd] at hc
    exact absurd hc (by simp)

theorem reVolMatch_hyphen {T D : List Char} (hT : timeShape T) (hD1 : D ≠ [])
    (hD2 : D.length ≤ 4) (hD3 : D.all Char.isDigit = true) :
    reVolMatch (T ++ '-' :: D) = some (T, D) := by
  have hamt : amtTail ('-' :: D) = some D := by
    unfold amtTail
    simp [hD1, hD2, hD3]
  cases hT with
  | bare1 a ha =>
    cases D with
    | nil => exact absurd rfl hD1
    | cons e D2 =>
      unfold reVolMatch volCands
      simp only [List.cons_append, List.nil_append]
      simp [ha, volFirst, hamt, show ('-' : Char).isDigit = false by decide]
  | bare2 a b ha hb =>
    unfold reVolMatch volCands
    simp only [List.cons_append, List.nil_append]
    simp [ha, hb, volFirst, hamt]
  | hm1 a c d ha hc hd =>
    unfold reVolMatch volCands
    simp only [List.cons_append, List.nil_append]
    simp [ha, hc, hd, volFirst, hamt,
      show (':' : Char).isDigit = false by decide]
  | hm2 a b c d ha hb hc hd =>
    unfold reVolMatch volCands
    simp only [List.cons_append, List.nil_append]
    simp [ha, hb, hc, hd, volFirst, hamt]

/-- C2 counterexample: the token `123` carries no hyphen, yet it is
accepted as time 12:30 with amount 3 — the regex makes the hyphen
optional. -/
theorem volume_hyphen_counterexample :
    parseVolumeToken ['1', '2', '3'] = some (⟨12, 30⟩, 3) := by decide

theorem volCands_shape {tok g r : List Char}
    (h : (g, r) ∈ volCands tok) : timeShape g := by
  unfold volCands at h
  repeat' split at h
  all_goals simp only [List.mem_append, List.mem_cons, List.mem_singleton,
    List.not_mem_nil, or_false, false_or, Prod.mk.injEq] at h
  all_goals rcases h with ⟨rfl, rfl⟩ | ⟨rfl, rfl⟩ | ⟨rfl, rfl⟩
  all_goals try simp_all only [Bool.and_eq_true]
  all_goals constructor <;> first | assumption | simp_all

/-- Any time-shaped prefix is among the regex's candidate splits of the
token it heads. -/
theorem volCands_self_mem {T : List Char} (hT : timeShape T)
    (rem : List Char) : (T, rem) ∈ volCands (T ++ rem) := by
  cases hT with
  | bare1 a ha =>
    cases rem with
    | nil =>
      rw [List.append_nil, volCands.eq_def]
      simp [ha]
    | cons r1 rest =>
      rw [List.cons_append, List.nil_append, volCands.eq_def]
      simp only [ha, if_true]
      by_cases h1 : r1.isDigit
      · rw [if_pos h1]
        exact List.mem_append_right _ (by simp)
      · rw [if_neg h1]
        exact List.mem_append_right _ (by simp)
  | bare2 a b ha hb =>
    rw [List.cons_append, List.cons_append, List.nil_append, volCands.eq_def]
    simp only [ha, hb, if_true]
    exact List.mem_append_right _ (by simp)
  | hm1 a c d ha hc hd =>
    rw [List.cons_append, List.cons_append, List.cons_append,
      List.cons_append, List.nil_append, volCands.eq_def]
    simp only [ha, if_true, show (':' : Char).isDigit = false by decide,
      Bool.false_eq_true, if_false, hc, hd, Bool.and_self]
    exact List.mem_append_left _ (by simp)
  | hm2 a b c d ha hb hc hd =>
    rw [List.cons_append, List.cons_append, List.cons_append,
      List.cons_append, List.cons_append, List.nil_append, volCands.eq_def]
    simp only [ha, hb, if_true, hc, hd, Bool.and_self]
    exact List.mem_append_left _ (by simp)

/-- `volFirst` succeeds as soon as any candidate's remainder matches
`-?(\d{1,4})$`, the backtracking only choosing the earliest one. -/
theorem volFirst_ne_none {cs : List (List Char × List Char)}
    {g r ds : List Char} (hmem : (g, r) ∈ cs)
    (hamt : amtTail r = some ds) : volFirst cs ≠ none := by
  induction cs with
  | nil => simp at hmem
  | cons pr rest ih =>
    obtain ⟨g0, r0⟩ := pr
    unfold volFirst
    cases h0 : amtTail r0 with
    | some ds0 => simp
    | none =>
      rcases List.mem_cons.mp hmem with heq | hmem2
      · obtain ⟨h1, h2⟩ := Prod.mk.injEq .. ▸ heq
        rw [h2] at hamt
        rw [hamt] at h0
        exact absurd h0 (by simp)
      · exact ih hmem2

/-- C2 (amended): the hyphen is optional.  A token is accepted if and only
if it splits as a time shape, an optional hyphen and 1-4 digits ending the
token, with the regex's preferred split carrying a recognized time: every
match decomposes the token that way and gates acceptance on the chosen
time group, with the amount the chosen split's full digit group (never a
truncated prefix); every token admitting such a split is matched; a token
with no match — in particular one ending in a non-digit, i.e. carrying any
trailing suffix after the amount — is rejected whole; and the hyphenated
family `time-digits` parses to exactly that time and amount. -/
theorem volume_grammar_amended :
    (∀ tok g ds : List Char, reVolMatch tok = some (g, ds) →
      timeShape g ∧ ds ≠ [] ∧ ds.length ≤ 4 ∧ ds.all Char.isDigit = true ∧
      (tok = g ++ ds ∨ tok = g ++ '-' :: ds) ∧
      parseVolumeToken tok =
        (parse_time g).map fun t => (t, digitsToNat ds)) ∧
    (∀ T sep D : List Char, timeShape T → (sep = [] ∨ sep = ['-']) →
      D ≠ [] → D.length ≤ 4 → D.all Char.isDigit = true →
      reVolMatch (T ++ (sep ++ D)) ≠ none) ∧
    (∀ tok : List Char, reVolMatch tok = none →
      parseVolumeToken tok = none) ∧
    (∀ T D : List Char, timeShape T → D ≠ [] → D.length ≤ 4 →
      D.all Char.isDigit = true →
      parseVolumeToken (T ++ '-' :: D) =
        match parse_time T with
        | none => none
        | some t => some (t, digitsToNat D)) ∧
    (∀ (tok : List Char) (c : Char), c.isDigit = false →
      parseVolumeToken (tok ++ [c]) = none) := by
  refine ⟨?_, ?_, ?_, ?_, ?_⟩
  · intro tok g ds h
    obtain ⟨r, hmem, hamt⟩ := volFirst_mem h
    obtain ⟨hshape, hne, hlen, hdig⟩ := amtTail_spec hamt
    have happ := volCands_append hmem
    refine ⟨volCands_shape hmem, hne, hlen, hdig, ?_, ?_⟩
    · rcases hshape with rfl | rfl
      · exact Or.inl happ
      · exact Or.inr happ
    · unfold parseVolumeToken
      rw [h]
      cases hpt : parse_time g <;> simp [hpt]
  · intro T sep D hT hsep hD1 hD2 hD3
    have hamt : amtTail (sep ++ D) = some D := by
      rcases hsep with rfl | rfl
      · rw [List.nil_append]
        cases D with
        | nil => exact absurd rfl hD1
        | cons e D2 =>
          have he : e.isDigit = true := List.all_eq_true.mp hD3 e (by simp)
          have hene : e ≠ '-' := fun h2 => by
            rw [h2] at he
            exact absurd he (by decide)
          unfold amtTail
          split
          · next ds0 heq =>
            exact absurd (List.cons.injEq .. ▸ heq).1 hene
          · simp only [List.length_cons] at hD2
            simp [hD1, hD3]
            omega
      · rw [List.cons_append, List.nil_append]
        unfold amtTail
        simp [hD1, hD2, hD3]
    exact volFirst_ne_none (volCands_self_mem hT (sep ++ D)) hamt
  · intro tok h
    unfold parseVolumeToken
    rw [h]
  · intro T D hT hD1 hD2 hD3
    unfold parseVolumeToken
    rw [reVolMatch_hyphen hT hD1 hD2 hD3]
  · exact fun tok c hc => parseVolumeToken_trailing_none hc

/-- Witness for C2 (amended): `09:00-60` is accepted as (09:00, 60),
`09:00-60a` is rejected, the hyphen-less `85` is matched, and `1234567`
(which admits no split) is rejected. -/
theorem volume_grammar_amended_witness :
    parseVolumeToken ['0', '9', ':', '0', '0', '-', '6', '0'] =
      some (⟨9, 0⟩, 60) ∧
    parseVolumeToken ['0', '9', ':', '0', '0', '-', '6', '0', 'a'] = none ∧
    reVolMatch ['8', '5'] ≠ none ∧
    parseVolumeToken ['1', '2', '3', '4', '5', '6', '7'] = none := by
  refine ⟨?_, ?_, ?_, ?_⟩
  · have h := volume_grammar_amended.2.2.2.1 ['0', '9', ':', '0', '0']
      ['6', '0']
      (timeShape.hm2 '0' '9' '0' '0' (by decide) (by decide) (by decide)
        (by decide))
      (by decide) (by decide) (by decide)
    simp only [List.cons_append, List.nil_append] at h
    rw [h]
    decide
  · have h := volume_grammar_amended.2.2.2.2
      ['0', '9', ':', '0', '0', '-', '6', '0'] 'a' (by decide)
    simpa using h
  · have h := volume_grammar_amended.2.1 ['8'] [] ['5']
      (timeShape.bare1 '8' (by decide)) (Or.inl rfl) (by decide) (by decide)
      (by decide)
    simpa using h
  · exact volume_grammar_amended.2.2.1 ['1', '2', '3', '4', '5', '6', '7']
      (by decide)

/-- C6 counterexample: the token `09:00-0` denotes a zero amount, yet it is
accepted with amount 0 — the code only checks `amt is not None`, not
positivity. -/
theorem volume_zero_counterexample :
    parseVolumeToken ['0', '9', ':', '0', '0', '-', '0'] =
      some (⟨9, 0⟩, 0) := by decide

/-- C6 (amended): a token with a hyphen but no digits after it is rejected
(a missing amount never parses), but a zero amount is accepted: accepted
amounts are exactly the 1-4 digit numerals' values, zero included. -/
theorem volume_amount_amended :
    (∀ T : List Char, timeShape T → parseVolumeToken (T ++ ['-']) = none) ∧
    parseVolumeToken ['1', '0', ':', '0', '0', '-', '0'] =
      some (⟨10, 0⟩, 0) := by
  constructor
  · intro T hT
    exact @parseVolumeToken_trailing_none T '-' (by decide)
  · decide

/-- Witness for C6 (amended) at the token `09:00-`. -/
theorem volume_amount_amended_witness :
    parseVolumeToken ['0', '9', ':', '0', '0', '-'] = none := by
  have h := volume_amount_amended.1 ['0', '9', ':', '0', '0']
    (timeShape.hm2 '0' '9' '0' '0' (by decide) (by decide) (by decide)
      (by decide))
  simpa using h

/- ### Weight claims -/

/-- C8 counterexample: a row whose weight cell holds the non-numeric text
`abc` still produces a weight sample carrying that text, where the claim
predicts no sample for that date. -/
theorem weight_nonnumeric_counterexample :
    weightRecs
        [⟨0, none, none, none, none, none, some (WVal.txt ['a', 'b', 'c'])⟩] =
      [⟨0, WVal.txt ['a', 'b', 'c']⟩] := by decide

/-- C8 (amended): each row yields at most one weight sample and a missing
(`NaN`) weight yields none, but any non-missing value — numeric or not —
yields exactly one sample carrying that value as-is. -/
theorem weight_sample_amended (r : Row) :
    (rowWeightRecs r).length ≤ 1 ∧
    (r.weight = none → rowWeightRecs r = []) ∧
    (∀ w, r.weight = some w → rowWeightRecs r = [⟨r.date, w⟩]) := by
  unfold rowWeightRecs
  cases hw : r.weight with
  | none => simp
  | some w => simp

/-- Witness for C8 (amended) at a row with numeric weight 4. -/
theorem weight_sample_amended_witness :
    rowWeightRecs ⟨3, none, none, none, none, none, some (WVal.num 4)⟩ =
      [⟨3, WVal.num 4⟩] :=
  (weight_sample_amended _).2.2 (WVal.num 4) rfl

/- ### Aggregation lemmas -/

theorem sortedDates_sorted (ds : List Nat) :
    (sortedDates ds).Sorted (· < ·) := by
  have h1 : (sortedDates ds).Sorted (· ≤ ·) := List.sorted_insertionSort _ _
  have h2 : (sortedDates ds).Nodup :=
    (List.perm_insertionSort (· ≤ ·) ds.dedup).symm.nodup (List.nodup_dedup ds)
  exact (List.Pairwise.and h1 h2).imp fun hab =>
    lt_of_le_of_ne hab.1 hab.2

theorem sortedDates_mem {ds : List Nat} {d : Nat} :
    d ∈ sortedDates ds ↔ d ∈ ds := by
  unfold sortedDates
  rw [(List.perm_insertionSort (· ≤ ·) ds.dedup).mem_iff, List.mem_dedup]

theorem sortedDates_perm_eq {ds1 ds2 : List Nat} (h : ds1.Perm ds2) :
    sortedDates ds1 = sortedDates ds2 :=
  List.eq_of_perm_of_sorted
    ((List.perm_insertionSort _ _).trans
      (h.dedup.trans (List.perm_insertionSort _ _).symm))
    (List.sorted_insertionSort _ _) (List.sorted_insertionSort _ _)

theorem length_filter_eq_count_map {α : Type} (g : α → Nat) (l : List α)
    (d : Nat) : (l.filter fun r => g r == d).length = (l.map g).count d := by
  rw [List.count, List.countP_map, ← List.countP_eq_length_filter]
  rfl

theorem eventDates_perm {b1 b2 : List BreastRec} {p1 p2 f1 f2 : List VolRec}
    {u1 u2 s1 s2 : List DiaperRec} (hb : b1.Perm b2) (hp : p1.Perm p2)
    (hf : f1.Perm f2) (hu : u1.Perm u2) (hs : s1.Perm s2) :
    (eventDates b1 p1 f1 u1 s1).Perm (eventDates b2 p2 f2 u2 s2) := by
  unfold eventDates
  exact ((((hb.map _).append (hp.map _)).append (hf.map _)).append
    (hu.map _)).append (hs.map _)

theorem amountSum_perm {l1 l2 : List VolRec} (h : l1.Perm l2) (d : Nat) :
    amountSum l1 d = amountSum l2 d :=
  ((h.filter _).map _).sum_eq

theorem lengthSum_perm {l1 l2 : List BreastRec} (h : l1.Perm l2) (d : Nat) :
    lengthSum l1 d = lengthSum l2 d :=
  ((h.filter _).map _).sum_eq

theorem countTable_perm {b1 b2 : List BreastRec} {p1 p2 f1 f2 : List VolRec}
    {u1 u2 s1 s2 : List DiaperRec} (hb : b1.Perm b2) (hp : p1.Perm p2)
    (hf : f1.Perm f2) (hu : u1.Perm u2) (hs : s1.Perm s2) :
    countTable b1 p1 f1 u1 s1 = countTable b2 p2 f2 u2 s2 := by
  unfold countTable
  rw [sortedDates_perm_eq (eventDates_perm hb hp hf hu hs)]
  apply List.map_congr_left
  intro d _
  rw [(hb.filter fun r => r.date == d).length_eq,
      (hp.filter fun r => r.date == d).length_eq,
      (hf.filter fun r => r.date == d).length_eq,
      (hu.filter fun r => r.date == d).length_eq,
      (hs.filter fun r => r.date == d).length_eq]

/-- C3: the daily count table ranges over exactly the union of the dates of
the five event lists, in strictly ascending order, and each of its five
fields equals the exact number of events of that category on that row's
date (zero, explicitly, for a category with no events there). -/
theorem count_table_spec (b : List BreastRec) (p f : List VolRec)
    (u s : List DiaperRec) :
    ((countTable b p f u s).map CountRec.date).Sorted (· < ·) ∧
    (∀ d : Nat, d ∈ (countTable b p f u s).map CountRec.date ↔
      (d ∈ b.map BreastRec.date ∨ d ∈ p.map VolRec.date ∨
       d ∈ f.map VolRec.date ∨ d ∈ u.map DiaperRec.date ∨
       d ∈ s.map DiaperRec.date)) ∧
    (∀ c ∈ countTable b p f u s,
      c.breast = (b.map BreastRec.date).count c.date ∧
      c.pumped = (p.map VolRec.date).count c.date ∧
      c.formula = (f.map VolRec.date).count c.date ∧
      c.urine = (u.map DiaperRec.date).count c.date ∧
      c.stool = (s.map DiaperRec.date).count c.date) := by
  have hmap : (countTable b p f u s).map CountRec.date =
      sortedDates (eventDates b p f u s) := by
    unfold countTable
    rw [List.map_map]
    exact List.map_id _
  refine ⟨?_, ?_, ?_⟩
  · rw [hmap]
    exact sortedDates_sorted _
  · intro d
    rw [hmap, sortedDates_mem]
    unfold eventDates
    simp only [List.mem_append]
    tauto
  · intro c hc
    unfold countTable at hc
    obtain ⟨d, _, rfl⟩ := List.mem_map.mp hc
    exact ⟨length_filter_eq_count_map _ _ _, length_filter_eq_count_map _ _ _,
      length_filter_eq_count_map _ _ _, length_filter_eq_count_map _ _ _,
      length_filter_eq_count_map _ _ _⟩

/-- Witness for C3 on a one-event table: the table contains the date, is
sorted, and the count of the event's category at that member is 1. -/
theorem count_table_spec_witness :
    ((countTable [⟨5, ⟨8, 30⟩, none, none⟩] [] [] [] []).map
      CountRec.date).Sorted (· < ·) ∧
    5 ∈ (countTable [⟨5, ⟨8, 30⟩, none, none⟩] [] [] [] []).map CountRec.date ∧
    (⟨5, 1, 0, 0, 0, 0⟩ : CountRec).breast =
      (([⟨5, ⟨8, 30⟩, none, none⟩] : List BreastRec).map
        BreastRec.date).count 5 := by
  refine ⟨(count_table_spec _ _ _ _ _).1, ?_, ?_⟩
  · exact ((count_table_spec [⟨5, ⟨8, 30⟩, none, none⟩] [] [] [] []).2.1
      5).mpr (Or.inl (by decide))
  · exact (((count_table_spec [⟨5, ⟨8, 30⟩, none, none⟩] [] [] [] []).2.2
      ⟨5, 1, 0, 0, 0, 0⟩ (by decide)).1)

/-- C5: permuting the order of the input rows yields identical daily count
and daily totals tables. -/
theorem pipeline_order_independent {rows1 rows2 : List Row}
    (h : rows1.Perm rows2) :
    countRecords rows1 = countRecords rows2 ∧
    feedingTotalsOf rows1 = feedingTotalsOf rows2 ∧
    directTotalsOf rows1 = directTotalsOf rows2 := by
  have hb : (breastRecs rows1).Perm (breastRecs rows2) :=
    List.Perm.flatMap_right _ h
  have hp : (pumpedRecs rows1).Perm (pumpedRecs rows2) :=
    List.Perm.flatMap_right _ h
  have hf : (formulaRecs rows1).Perm (formulaRecs rows2) :=
    List.Perm.flatMap_right _ h
  have hu : (urineRecs rows1).Perm (urineRecs rows2) :=
    List.Perm.flatMap_right _ h
  have hs : (stoolRecs rows1).Perm (stoolRecs rows2) :=
    List.Perm.flatMap_right _ h
  refine ⟨countTable_perm hb hp hf hu hs, ?_, ?_⟩
  · unfold feedingTotalsOf feedingTotals
    rw [sortedDates_perm_eq (eventDates_perm hb hp hf hu hs)]
    apply List.map_congr_left
    intro d _
    rw [amountSum_perm hp, amountSum_perm hf]
  · unfold directTotalsOf directTotals
    rw [sortedDates_perm_eq (eventDates_perm hb hp hf hu hs)]
    apply List.map_congr_left
    intro d _
    rw [lengthSum_perm hb]

/-- Witness for C5: swapping two concrete rows leaves all three derived
tables unchanged. -/
theorem pipeline_order_independent_witness :
    countRecords
        [⟨1, some ['8'], none, none, none, none, none⟩,
         ⟨2, none, some ['9', '-', '5'], none, none, none, none⟩] =
      countRecords
        [⟨2, none, some ['9', '-', '5'], none, none, none, none⟩,
         ⟨1, some ['8'], none, none, none, none, none⟩] ∧
    feedingTotalsOf
        [⟨1, some ['8'], none, none, none, none, none⟩,
         ⟨2, none, some ['9', '-', '5'], none, none, none, none⟩] =
      feedingTotalsOf
        [⟨2, none, some ['9', '-', '5'], none, none, none, none⟩,
         ⟨1, some ['8'], none, none, none, none, none⟩] ∧
    directTotalsOf
        [⟨1, some ['8'], none, none, none, none, none⟩,
         ⟨2, none, some ['9', '-', '5'], none, none, none, none⟩] =
      directTotalsOf
        [⟨2, none, some ['9', '-', '5'], none, none, none, none⟩,
         ⟨1, some ['8'], none, none, none, none, none⟩] :=
  pipeline_order_independent
    (List.Perm.swap
      (⟨2, none, some ['9', '-', '5'], none, none, none, none⟩ : Row)
      (⟨1, some ['8'], none, none, none, none, none⟩ : Row) [])
example : parse_time ['2', '4'] = none := by decide
example : parse_time ['9', ':', '0', '5'] = some ⟨9, 5⟩ := by decide
example : parse_time ['9', ':', '5'] = some ⟨9, 5⟩ := by decide
example : parse_time ['9', ':', '6', '0'] = none := by decide
example : parse_time [' ', '7'] = some ⟨7, 30⟩ := by decide
example : parse_time ['1', '2', ':', '3', '4'] = some ⟨12, 34⟩ := by decide
